import Mathlib

/-!
Shallow embedding of the pagination / categorization core of `src/app.py`
(`ExcelToJsonPresentation`): the categorizer inside `read_excel_to_json`,
the paginator inside `_add_category_slides`, and the deck-level totals of
`create_presentation`.  Machine integers in the Python source are unbounded
Python ints, so they are modelled by `Nat` / `Int` directly.
-/

namespace App

/-- One cleaned spreadsheet row, after the source's NaN/None normalisation
(`df.fillna('')`, `df.replace({None: ''})`): every field is a string, with
`''` for absent cells.  Field names translate the Chinese column names used
by the code: `content` = `內容`, `category` = `類型`,
`affectedDivision` = `涉及處別`, `affectedDepartment` = `涉及部門`,
`systemType` = `系統別`. -/
structure Record where
  content : String
  category : String
  affectedDivision : String
  affectedDepartment : String
  systemType : String
deriving DecidableEq, Repr

/-- `charsLead sub l` : `sub` is an initial segment of `l` (character lists). -/
def charsLead : List Char → List Char → Bool
  | [], _ => true
  | _ :: _, [] => false
  | a :: as, b :: bs => a = b && charsLead as bs

/-- `charsContain sub l` : `sub` occurs contiguously somewhere in `l`. -/
def charsContain (sub : List Char) : List Char → Bool
  | [] => sub.isEmpty
  | b :: bs => charsLead sub (b :: bs) || charsContain sub bs

/-- Models the Python substring test `sub in s` on strings. -/
def strContains (sub s : String) : Bool :=
  charsContain sub.toList s.toList

/-- The exclusion marker used throughout `app.py`: `"宣導"`. -/
def xuandao : String := "宣導"

/-- The exclusion predicate `'宣導' in category` used at `app.py` lines
115, 123, 134, 194, 200, 244 and 258. -/
def isExcluded (c : String) : Bool := strContains xuandao c

/-! ## Paginator: `_add_category_slides`, lines 457-475

The Python loop builds `slides_batches : List[List[Tuple[item, seq_number]]]`
with a running `buffer_batch` and a running `seq_number` starting at 1.
`items_per_page` is a Python int (it may be zero or negative, no validation
is performed anywhere), so it is modelled as `Int`. -/

/-- `(item, seq)` pairs as batched by the loop.  State: `buffer` is the
current `buffer_batch`, `seq` the current `seq_number`.  Returns the list of
batches emitted from this point on, including the final
`if buffer_batch: slides_batches.append(buffer_batch)` flush. -/
def paginateAux (ipp : Int) (thr : Nat) :
    List Record → List (Record × Nat) → Nat → List (List (Record × Nat))
  | [], buffer, _ => if buffer = [] then [] else [buffer]
  | item :: rest, buffer, seq =>
      if item.content.length > thr then
        (if buffer = [] then [] else [buffer]) ++
          [[(item, seq)]] ++ paginateAux ipp thr rest [] (seq + 1)
      else
        let buffer' := buffer ++ [(item, seq)]
        if (buffer'.length : Int) ≥ ipp then
          [buffer'] ++ paginateAux ipp thr rest [] (seq + 1)
        else
          paginateAux ipp thr rest buffer' (seq + 1)

/-- The `slides_batches` list computed at `app.py` lines 458-475 for one
category's `items` (the source default for `max_content_length` is 200). -/
def slides_batches (items : List Record) (ipp : Int) (thr : Nat) :
    List (List (Record × Nat)) :=
  paginateAux ipp thr items [] 1

/-- The page title set at lines 486-489: `f"{category} ({page_num}/{total_pages})"`
when `total_pages > 1`, else the bare category name. -/
def pageTitle (category : String) (pageNum totalPages : Nat) : String :=
  if totalPages > 1 then
    category ++ " (" ++ toString pageNum ++ "/" ++ toString totalPages ++ ")"
  else category

/-- One rendered category page: the category it came from (the `category`
argument of `_add_category_slides`), the title written on the slide, and the
`(item, seq_no)` pairs rendered on it. -/
structure CategoryPage where
  category : String
  title : String
  records : List (Record × Nat)
deriving DecidableEq, Repr

/-- `for page_num, page_items in enumerate(slides_batches, start=1)`:
turn the batches into pages, numbering from `n`. -/
def numberBatches (category : String) (total : Nat) :
    Nat → List (List (Record × Nat)) → List CategoryPage
  | _, [] => []
  | n, b :: bs =>
      { category := category, title := pageTitle category n total, records := b }
        :: numberBatches category total (n + 1) bs

/-- `_add_category_slides` (lines 442-541) as a page producer: early return
on empty `items` (line 454-455), then one slide per batch with the
`(page_num/total_pages)` title. -/
def add_category_slides (category : String) (items : List Record)
    (ipp : Int) (thr : Nat) : List CategoryPage :=
  if items = [] then []
  else
    let batches := slides_batches items ipp thr
    numberBatches category batches.length 1 batches

/-! ## Categorizer: `read_excel_to_json`, lines 109-146

`df.groupby('類型')` iterates groups in ascending sorted order of the key
(pandas `sort=True` default); within a group the original row order is kept.
Categories containing `宣導` are skipped (line 115). -/

/-- Lexicographic order on character lists: Python's `str` comparison
(code-point lexicographic), which is the key order `pandas.groupby` sorts
by. -/
def charsLe : List Char → List Char → Bool
  | [], _ => true
  | _ :: _, [] => false
  | a :: as, b :: bs => a < b || (a = b && charsLe as bs)

/-- Python string `<=`, used to model the sorted group-key order. -/
def strLe (a b : String) : Bool := charsLe a.toList b.toList

/-- `strLe` as a relation, for the sort. -/
def strLeRel (a b : String) : Prop := strLe a b = true

instance : DecidableRel strLeRel := fun a b =>
  inferInstanceAs (Decidable (strLe a b = true))

/-- The distinct category values of the input rows (order irrelevant:
they are sorted next). -/
def uniqueCategories (records : List Record) : List String :=
  (records.map Record.category).dedup

/-- The group keys in the order `for category, group in grouped` visits
them: ascending sorted order of the distinct `類型` values. -/
def sortedCategories (records : List Record) : List String :=
  List.insertionSort strLeRel (uniqueCategories records)

/-- `categorized_data` (lines 110-118): for each group key in groupby
order, skip it when it contains `宣導`, otherwise keep the key with its
rows in original order. -/
def categorized_data (records : List Record) :
    List (String × List Record) :=
  (sortedCategories records).filterMap fun c =>
    if isExcluded c then none
    else some (c, records.filter fun r => r.category = c)

/-- `category_stats` (lines 121-126): iterate `categorized_data`, skip
`宣導` categories again, record `len(items)`. -/
def category_stats (records : List Record) : List (String × Nat) :=
  (categorized_data records).filterMap fun p =>
    if isExcluded p.1 then none else some (p.1, p.2.length)

/-- `filtered_categories_for_meta` (line 134):
`[c for c in categorized_data.keys() if '宣導' not in c]`. -/
def filtered_categories_for_meta (records : List Record) : List String :=
  ((categorized_data records).map Prod.fst).filter fun c => !isExcluded c

/-- The parts of the `json_data` dict built at lines 135-146 that the deck
assembler reads.  `data_by_category` is `none` in the legacy shape where
the key is absent (the `else` branch of line 256 then runs). -/
structure JsonData where
  data_by_category : Option (List (String × List Record))
  data : List Record
  total_rows : Nat
  categories : List String
  stats : List (String × Nat)
deriving Repr

/-- `read_excel_to_json` on a sheet that has a `類型` column, restricted to
the fields of `JsonData` (lines 109-149). -/
def read_excel_to_json (records : List Record) : JsonData :=
  { data_by_category := some (categorized_data records)
  , data := records
  , total_rows := records.length
  , categories := filtered_categories_for_meta records
  , stats := category_stats records }

/-! ## Deck assembler: `create_presentation`, lines 175-293 -/

/-- The amount added to `self.filtered_total` at lines 190-204: with
`data_by_category` present, the sum of group sizes over non-`宣導`
categories; otherwise one per row of `data` whose `類型` avoids `宣導`. -/
def filteredTotalIncrement (j : JsonData) : Nat :=
  match j.data_by_category with
  | some groups =>
      (groups.filterMap fun p =>
        if isExcluded p.1 then none else some p.2.length).sum
  | none =>
      (j.data.filter fun r => !isExcluded r.category).length

/-- The category pages appended at lines 256-264: one
`_add_category_slides` call per non-`宣導` group, in group order; without
`data_by_category`, a single call on the raw data under `"所有議題"`. -/
def categoryPages (j : JsonData) (ipp : Int) : List CategoryPage :=
  match j.data_by_category with
  | some groups =>
      groups.flatMap fun p =>
        if isExcluded p.1 then [] else add_category_slides p.1 p.2 ipp 200
  | none => add_category_slides "所有議題" j.data ipp 200

/-- One `create_presentation(output, items_per_page)` call on an instance
whose `filtered_total` currently holds `st` (0 on a fresh instance):
returns the new `filtered_total` — the number displayed in the title-slide
subtitle (line 213), the overview page (line 237) and the motivation page
(line 364) of this deck — together with the category pages of this deck. -/
def create_presentation (st : Nat) (j : JsonData) (ipp : Int) :
    Nat × List CategoryPage :=
  (st + filteredTotalIncrement j, categoryPages j ipp)

/-- `self.filtered_total` after `k` calls of `create_presentation` on one
instance (initialised to 0 at line 20 and never reset); this is also the
total displayed in the `k`-th deck's narrative text, for `k ≥ 1`. -/
def totalAfterCalls (j : JsonData) (ipp : Int) : Nat → Nat
  | 0 => 0
  | k + 1 => (create_presentation (totalAfterCalls j ipp k) j ipp).1

/-- Records of a category, paired with their 1-based sequence numbers
starting at `s` — the unsplit numbering the spec talks about. -/
def withSeq : List Record → Nat → List (Record × Nat)
  | [], _ => []
  | r :: rest, s => (r, s) :: withSeq rest (s + 1)

/-! ## Basic facts about the sequence numbering -/

theorem withSeq_map_fst (items : List Record) (s : Nat) :
    (withSeq items s).map Prod.fst = items := by
  induction items generalizing s with
  | nil => rfl
  | cons r rest ih => simp [withSeq, ih]

theorem withSeq_map_snd (items : List Record) (s : Nat) :
    (withSeq items s).map Prod.snd = List.range' s items.length := by
  induction items generalizing s with
  | nil => rfl
  | cons r rest ih => simp [withSeq, ih, List.range'_succ]

theorem withSeq_length (items : List Record) (s : Nat) :
    (withSeq items s).length = items.length := by
  induction items generalizing s with
  | nil => rfl
  | cons r rest ih => simp [withSeq, ih]

/-- Flattening the batches recovers the buffer followed by the remaining
records with their original sequence numbers: pagination never drops,
duplicates or renumbers a record. -/
theorem paginateAux_flatten (ipp : Int) (thr : Nat) (items : List Record)
    (buffer : List (Record × Nat)) (seq : Nat) :
    (paginateAux ipp thr items buffer seq).flatten = buffer ++ withSeq items seq := by
  induction items generalizing buffer seq with
  | nil =>
      by_cases h : buffer = [] <;> simp [paginateAux, h, withSeq]
  | cons item rest ih =>
      by_cases hlong : item.content.length > thr
      · by_cases hb : buffer = [] <;>
          simp [paginateAux, hlong, hb, ih, withSeq]
      · by_cases hflush : ipp ≤ (buffer.length : Int) + 1 <;>
          simp [paginateAux, hlong, hflush, ih, withSeq]

theorem slides_batches_flatten (items : List Record) (ipp : Int) (thr : Nat) :
    (slides_batches items ipp thr).flatten = withSeq items 1 := by
  simp [slides_batches, paginateAux_flatten]

/-- C1.  Sequence stability: concatenating the `(item, seq_number)` pairs of
the batches built by `_add_category_slides` (lines 457-475), in page order,
and reading off the global sequence numbers gives exactly `1, 2, ..., N`
where `N` is the number of records of the category — no gaps, no repeats,
and a record isolated on its own page keeps its unsplit number. -/
theorem seq_concat_reproduces_original_order
    (items : List Record) (ipp : Int) (thr : Nat) :
    ((slides_batches items ipp thr).flatten).map Prod.snd
      = List.range' 1 items.length
    ∧ ((slides_batches items ipp thr).flatten).map Prod.fst = items := by
  rw [slides_batches_flatten]
  exact ⟨withSeq_map_snd items 1, withSeq_map_fst items 1⟩

/-! ## C2: oversized records are isolated -/

/-- If the running buffer holds only records whose content fits the
threshold, then every batch that contains an oversized record is a
singleton consisting of that record. -/
theorem paginateAux_isolates (ipp : Int) (thr : Nat) (items : List Record)
    (buffer : List (Record × Nat)) (seq : Nat)
    (hbuf : ∀ p ∈ buffer, p.1.content.length ≤ thr) :
    ∀ b ∈ paginateAux ipp thr items buffer seq,
      ∀ p ∈ b, thr < p.1.content.length → b = [p] := by
  induction items generalizing buffer seq with
  | nil =>
      intro b hb p hp hlong
      by_cases h : buffer = []
      · subst h; simp [paginateAux] at hb
      · rw [paginateAux, if_neg h] at hb
        simp only [List.mem_singleton] at hb
        subst hb
        exact absurd (hbuf p hp) (by omega)
  | cons item rest ih =>
      intro b hb p hp hlong
      by_cases hl : item.content.length > thr
      · rw [paginateAux, if_pos hl] at hb
        rcases List.mem_append.mp hb with hbX | hbrec
        · rcases List.mem_append.mp hbX with hbB | hbiso
          · by_cases hbe : buffer = []
            · rw [if_pos hbe] at hbB; simp at hbB
            · rw [if_neg hbe] at hbB
              simp only [List.mem_singleton] at hbB
              subst hbB
              exact absurd (hbuf p hp) (by omega)
          · simp only [List.mem_singleton] at hbiso
            subst hbiso
            simp only [List.mem_singleton] at hp
            subst hp
            rfl
        · exact ih [] (seq + 1) (by simp) b hbrec p hp hlong
      · rw [paginateAux, if_neg hl] at hb
        have hshort : item.content.length ≤ thr := by omega
        have hbuf' : ∀ q ∈ buffer ++ [(item, seq)], q.1.content.length ≤ thr := by
          intro q hq
          rcases List.mem_append.mp hq with hq | hq
          · exact hbuf q hq
          · simp at hq; subst hq; exact hshort
        by_cases hflush : ((buffer ++ [(item, seq)]).length : Int) ≥ ipp
        · rw [if_pos hflush] at hb
          rcases List.mem_append.mp hb with hb | hb
          · simp only [List.mem_singleton] at hb
            subst hb
            exact absurd (hbuf' p hp) (by omega)
          · exact ih [] (seq + 1) (by simp) b hb p hp hlong
        · rw [if_neg hflush] at hb
          exact ih (buffer ++ [(item, seq)]) (seq + 1) hbuf' b hb p hp hlong

/-- C2.  Isolation correctness: any record whose content is strictly longer
than `max_content_length` ends up on a page containing exactly that record
(lines 461-467); everything buffered before it was flushed as a previous
page, as witnessed by the order-preservation of `slides_batches_flatten`. -/
theorem oversized_record_isolated (items : List Record) (ipp : Int)
    (thr : Nat) (b : List (Record × Nat))
    (hb : b ∈ slides_batches items ipp thr) (p : Record × Nat)
    (hp : p ∈ b) (hlong : thr < p.1.content.length) : b = [p] :=
  paginateAux_isolates ipp thr items [] 1 (by simp) b hb p hp hlong

/-- A 201-character content string: strictly longer than the source's
`max_content_length = 200`. -/
def longContent : String := String.mk (List.replicate 201 'a')

/-- An oversized record of category `"Y"`. -/
def rLong : Record := ⟨longContent, "Y", "", "", ""⟩

/-- A short record of category `"Y"`. -/
def rShort : Record := ⟨"短", "Y", "", "", ""⟩

/-- A second short record of category `"Y"`. -/
def rShort2 : Record := ⟨"短2", "Y", "", "", ""⟩

set_option maxRecDepth 8000

/-- Concrete run of C2: with `items_per_page = 3`, the oversized second
record is isolated on its own page and keeps sequence number 2. -/
theorem oversized_record_isolated_witness :
    ([((rLong : Record), 2)] : List (Record × Nat)) = [(rLong, 2)] :=
  oversized_record_isolated [rShort, rLong] 3 200 [(rLong, 2)]
    (by decide) (rLong, 2) (by decide) (by decide)

/-! ## C3: non-positive `items_per_page` -/

/-- C3 counterexample.  The source validates `items_per_page` nowhere: with
`items_per_page = 0` and two short records the paginator raises no error
and happily emits two pages, contradicting "fails with an
InvalidConfiguration error and produces no partial output". -/
theorem nonpositive_ipp_emits_pages :
    slides_batches [rShort, rShort2] 0 200 = [[(rShort, 1)], [(rShort2, 2)]]
    ∧ slides_batches [rShort, rShort2] 0 200 ≠ [] := by
  constructor
  · decide
  · decide

/-- With `items_per_page ≤ 0` the flush test
`len(buffer_batch) >= items_per_page` succeeds after every append, so the
run degenerates into one singleton page per record. -/
theorem paginateAux_nonpos (ipp : Int) (thr : Nat) (items : List Record)
    (seq : Nat) (hipp : ipp ≤ 0) :
    paginateAux ipp thr items [] seq = (withSeq items seq).map (fun p => [p]) := by
  induction items generalizing seq with
  | nil => simp [paginateAux, withSeq]
  | cons item rest ih =>
      by_cases hl : item.content.length > thr
      · simp [paginateAux, hl, ih, withSeq]
      · simp [paginateAux, hl, ih, withSeq]
        intro h
        exfalso
        omega

/-- C3 (amended).  `_add_category_slides` performs no validation of
`items_per_page`: for `items_per_page ≤ 0` it neither fails nor emits
nothing — every record (short or oversized) is flushed as its own
single-record page, so exactly one page per record is produced. -/
theorem nonpositive_ipp_singleton_pages (items : List Record) (ipp : Int)
    (thr : Nat) (hipp : ipp ≤ 0) :
    slides_batches items ipp thr = (withSeq items 1).map (fun p => [p]) :=
  paginateAux_nonpos ipp thr items 1 hipp

/-- Concrete run of amended C3 at `items_per_page = 0`. -/
theorem nonpositive_ipp_singleton_pages_witness :
    slides_batches [rShort, rShort2] 0 200 = [[(rShort, 1)], [(rShort2, 2)]] := by
  rw [nonpositive_ipp_singleton_pages [rShort, rShort2] 0 200 (by decide)]
  decide

/-! ## C4: page-size bound -/

/-- Size invariant of the loop: if the buffer is strictly below
`items_per_page`, every batch emitted from here on has at most
`items_per_page` records (given `items_per_page ≥ 1`, which also covers
the singleton pages made by isolation). -/
theorem paginateAux_size_le (ipp : Int) (thr : Nat) (items : List Record)
    (buffer : List (Record × Nat)) (seq : Nat) (h1 : 1 ≤ ipp)
    (hbuf : (buffer.length : Int) < ipp) :
    ∀ b ∈ paginateAux ipp thr items buffer seq, (b.length : Int) ≤ ipp := by
  induction items generalizing buffer seq with
  | nil =>
      intro b hb
      by_cases h : buffer = []
      · subst h; simp [paginateAux] at hb
      · rw [paginateAux, if_neg h] at hb
        simp only [List.mem_singleton] at hb
        subst hb
        omega
  | cons item rest ih =>
      intro b hb
      by_cases hl : item.content.length > thr
      · rw [paginateAux, if_pos hl] at hb
        rcases List.mem_append.mp hb with hbX | hbrec
        · rcases List.mem_append.mp hbX with hbB | hbiso
          · by_cases hbe : buffer = []
            · rw [if_pos hbe] at hbB; simp at hbB
            · rw [if_neg hbe] at hbB
              simp only [List.mem_singleton] at hbB
              subst hbB
              omega
          · simp only [List.mem_singleton] at hbiso
            subst hbiso
            simpa using h1
        · exact ih [] (seq + 1) (by simpa using h1) b hbrec
      · rw [paginateAux, if_neg hl] at hb
        by_cases hflush : ((buffer ++ [(item, seq)]).length : Int) ≥ ipp
        · rw [if_pos hflush] at hb
          rcases List.mem_append.mp hb with hb | hb
          · simp only [List.mem_singleton] at hb
            subst hb
            simp only [List.length_append, List.length_singleton]
            push_cast
            omega
          · exact ih [] (seq + 1) (by simpa using h1) b hb
        · rw [if_neg hflush] at hb
          refine ih (buffer ++ [(item, seq)]) (seq + 1) ?_ b hb
          simpa using hflush

/-- C4.  Page-size bound: with `items_per_page ≥ 1` every page produced by
`_add_category_slides` holds at most `items_per_page` records — in
particular every page not produced by oversized-record isolation does
(isolation pages hold exactly one record, also within the bound). -/
theorem page_size_le_items_per_page (items : List Record) (ipp : Int)
    (thr : Nat) (h1 : 1 ≤ ipp) (b : List (Record × Nat))
    (hb : b ∈ slides_batches items ipp thr) : (b.length : Int) ≤ ipp :=
  paginateAux_size_le ipp thr items [] 1 h1 (by simpa using h1) b hb

/-- Concrete run of C4: 3 short records at `items_per_page = 2`; the first
page holds 2 ≤ 2 records. -/
theorem page_size_le_items_per_page_witness :
    (([(rShort, 1), (rShort2, 2)] : List (Record × Nat)).length : Int) ≤ 2 :=
  page_size_le_items_per_page [rShort, rShort2, rShort] 2 200 (by decide)
    [(rShort, 1), (rShort2, 2)] (by decide)

/-! ## C5: order of the category groups -/

theorem charsLe_total : ∀ x y : List Char, charsLe x y = true ∨ charsLe y x = true
  | [], _ => Or.inl rfl
  | _ :: _, [] => Or.inr rfl
  | a :: as, b :: bs => by
      rcases lt_trichotomy a b with h | h | h
      · left; simp [charsLe, h]
      · subst h
        rcases charsLe_total as bs with ih | ih
        · left; simp [charsLe, ih]
        · right; simp [charsLe, ih]
      · right; simp [charsLe, h]

theorem charsLe_trans : ∀ x y z : List Char,
    charsLe x y = true → charsLe y z = true → charsLe x z = true
  | [], _, _, _, _ => rfl
  | _ :: _, [], _, hxy, _ => by simp [charsLe] at hxy
  | _ :: _, _ :: _, [], _, hyz => by simp [charsLe] at hyz
  | a :: as, b :: bs, c :: cs, hxy, hyz => by
      simp only [charsLe, Bool.or_eq_true, Bool.and_eq_true,
        decide_eq_true_eq] at hxy hyz ⊢
      rcases hxy with h1 | ⟨h1, h1'⟩
      · rcases hyz with h2 | ⟨h2, h2'⟩
        · exact Or.inl (h1.trans h2)
        · subst h2; exact Or.inl h1
      · subst h1
        rcases hyz with h2 | ⟨h2, h2'⟩
        · exact Or.inl h2
        · subst h2; exact Or.inr ⟨rfl, charsLe_trans as bs cs h1' h2'⟩

instance : IsTotal String strLeRel :=
  ⟨fun a b => charsLe_total a.toList b.toList⟩

instance : IsTrans String strLeRel :=
  ⟨fun a b c => charsLe_trans a.toList b.toList c.toList⟩

/-- `filterMap` with an `if p then none` guard is a filter-then-map. -/
theorem filterMap_ite {α β : Type} (p : α → Bool) (f : α → β) (l : List α) :
    (l.filterMap fun c => if p c then none else some (f c))
      = (l.filter fun c => !p c).map f := by
  induction l with
  | nil => rfl
  | cons c t ih =>
      by_cases h : p c = true <;>
        simp [List.filterMap_cons, List.filter_cons, h, ih]

theorem categorized_data_eq (records : List Record) :
    categorized_data records
      = ((sortedCategories records).filter fun c => !isExcluded c).map
          (fun c => (c, records.filter fun r => r.category = c)) :=
  filterMap_ite isExcluded _ (sortedCategories records)

theorem categorized_keys (records : List Record) :
    (categorized_data records).map Prod.fst
      = (sortedCategories records).filter fun c => !isExcluded c := by
  rw [categorized_data_eq, List.map_map]
  exact (List.map_congr_left fun a _ => rfl).trans (List.map_id _)

theorem sortedCategories_sorted (records : List Record) :
    (sortedCategories records).Sorted strLeRel :=
  List.sorted_insertionSort strLeRel _

theorem sortedCategories_nodup (records : List Record) :
    (sortedCategories records).Nodup :=
  (List.perm_insertionSort strLeRel (uniqueCategories records)).symm.nodup
    (List.nodup_dedup _)

theorem mem_sortedCategories {records : List Record} {c : String} :
    c ∈ sortedCategories records ↔ c ∈ records.map Record.category :=
  ((List.perm_insertionSort strLeRel (uniqueCategories records)).mem_iff).trans
    List.mem_dedup

/-- Every group's key is a surviving (non-`宣導`) category. -/
theorem categorized_keys_not_excluded (records : List Record) :
    ∀ p ∈ categorized_data records, isExcluded p.1 = false := by
  intro p hp
  rw [categorized_data_eq] at hp
  rcases List.mem_map.mp hp with ⟨c, hc, rfl⟩
  simpa using (List.mem_filter.mp hc).2

/-- Every group holds exactly the input records of its category, in input
order. -/
theorem categorized_groups_filter (records : List Record) :
    ∀ p ∈ categorized_data records,
      p.2 = records.filter fun r => r.category = p.1 := by
  intro p hp
  rw [categorized_data_eq] at hp
  rcases List.mem_map.mp hp with ⟨c, _, rfl⟩
  rfl

/-- The order the claim describes, written from the spec's words
("group order = first-occurrence order of each distinct category value in
the input sequence"), for comparison with the order `categorized_data`
actually produces. -/
def firstOccAux : List String → List String
  | [] => []
  | c :: rest => c :: (firstOccAux rest).filter (fun d => d ≠ c)

/-- First-occurrence order of the distinct category values of the input. -/
def firstOccurrenceOrder (records : List Record) : List String :=
  firstOccAux (records.map Record.category)

/-- A record of category `"B"`. -/
def recB : Record := ⟨"內容b", "B", "", "", ""⟩

/-- A record of category `"A"`. -/
def recA : Record := ⟨"內容a", "A", "", "", ""⟩

/-- C5 counterexample.  With input categories `"B"` then `"A"`,
`df.groupby('類型')` (pandas default `sort=True`) visits the groups in
sorted key order `["A", "B"]`, while the first-occurrence order of the
input is `["B", "A"]`: the claim's order is not the code's order. -/
theorem group_order_is_sorted_not_first_occurrence :
    (categorized_data [recB, recA]).map Prod.fst = ["A", "B"]
    ∧ firstOccurrenceOrder [recB, recA] = ["B", "A"]
    ∧ (categorized_data [recB, recA]).map Prod.fst
        ≠ firstOccurrenceOrder [recB, recA] := by
  refine ⟨by decide, by decide, by decide⟩

/-- C5 (amended).  The category groups produced by `read_excel_to_json`
appear in ascending lexicographic (code-point) order of the distinct
category labels — the pandas `groupby` key order — not in first-occurrence
order; the keys are exactly the non-excluded category values occurring in
the input, and each group holds that category's records in input order. -/
theorem group_order_sorted_spec (records : List Record) :
    ((categorized_data records).map Prod.fst).Sorted strLeRel
    ∧ (∀ c : String,
        c ∈ (categorized_data records).map Prod.fst ↔
          (c ∈ records.map Record.category ∧ isExcluded c = false))
    ∧ ∀ p ∈ categorized_data records,
        p.2 = records.filter fun r => r.category = p.1 := by
  refine ⟨?_, ?_, categorized_groups_filter records⟩
  · rw [categorized_keys]
    exact (sortedCategories_sorted records).filter _
  · intro c
    rw [categorized_keys, List.mem_filter, mem_sortedCategories]
    simp

/-- Concrete run of amended C5: `"A"` is a produced group key, and its
group is the `"A"`-records of the input. -/
theorem group_order_sorted_spec_witness :
    ("A" ∈ (categorized_data [recB, recA]).map Prod.fst)
    ∧ ([recA] : List Record)
        = [recB, recA].filter (fun r => r.category = "A") := by
  constructor
  · exact ((group_order_sorted_spec [recB, recA]).2.1 "A").mpr (by decide)
  · exact (group_order_sorted_spec [recB, recA]).2.2 ("A", [recA]) (by decide)

/-! ## C6: excluded categories never surface -/

theorem numberBatches_length (c : String) (total : Nat) :
    ∀ (n : Nat) (bs : List (List (Record × Nat))),
      (numberBatches c total n bs).length = bs.length
  | _, [] => rfl
  | n, _ :: bs => by
      simp [numberBatches, numberBatches_length c total (n + 1) bs]

theorem numberBatches_map_records (c : String) (total : Nat) :
    ∀ (n : Nat) (bs : List (List (Record × Nat))),
      (numberBatches c total n bs).map CategoryPage.records = bs
  | _, [] => rfl
  | n, _ :: bs => by
      simp [numberBatches, numberBatches_map_records c total (n + 1) bs]

theorem numberBatches_mem (c : String) (total : Nat) :
    ∀ (n : Nat) (bs : List (List (Record × Nat))) (pg : CategoryPage),
      pg ∈ numberBatches c total n bs → pg.category = c ∧ pg.records ∈ bs
  | _, [], _, h => by simp [numberBatches] at h
  | n, b :: bs, pg, h => by
      rcases List.mem_cons.mp h with h | h
      · subst h; exact ⟨rfl, by simp⟩
      · have := numberBatches_mem c total (n + 1) bs pg h
        exact ⟨this.1, by simp [this.2]⟩

/-- A record on a batch of `slides_batches` is one of the category's
records. -/
theorem mem_batches_mem_items {items : List Record} {ipp : Int} {thr : Nat}
    {b : List (Record × Nat)} (hb : b ∈ slides_batches items ipp thr)
    {p : Record × Nat} (hp : p ∈ b) : p.1 ∈ items := by
  have hfl : p ∈ (slides_batches items ipp thr).flatten :=
    List.mem_flatten.mpr ⟨b, hb, hp⟩
  rw [slides_batches_flatten] at hfl
  have := List.mem_map_of_mem Prod.fst hfl
  rwa [withSeq_map_fst] at this

/-- Every page produced by `_add_category_slides` carries its category and
only that category's records. -/
theorem add_category_slides_mem (c : String) (items : List Record)
    (ipp : Int) (thr : Nat) (pg : CategoryPage)
    (hpg : pg ∈ add_category_slides c items ipp thr) :
    pg.category = c ∧ ∀ p ∈ pg.records, p.1 ∈ items := by
  by_cases h : items = []
  · rw [add_category_slides, if_pos h] at hpg
    simp at hpg
  · rw [add_category_slides, if_neg h] at hpg
    have hmem := numberBatches_mem c (slides_batches items ipp thr).length 1
      (slides_batches items ipp thr) pg hpg
    exact ⟨hmem.1, fun p hp => mem_batches_mem_items hmem.2 hp⟩

/-- C6.  Filter idempotence: a category whose name contains `宣導` never
appears among the groups, the statistics keys, the metadata category list,
or the rendered category pages of the deck built from the same records;
moreover no rendered record belongs to an excluded category. -/
theorem excluded_category_never_appears (records : List Record) (c : String)
    (hc : isExcluded c = true) (ipp : Int) :
    c ∉ (categorized_data records).map Prod.fst
    ∧ c ∉ (category_stats records).map Prod.fst
    ∧ c ∉ (read_excel_to_json records).categories
    ∧ ∀ pg ∈ categoryPages (read_excel_to_json records) ipp,
        isExcluded pg.category = false
        ∧ ∀ p ∈ pg.records, isExcluded p.1.category = false := by
  refine ⟨?_, ?_, ?_, ?_⟩
  · intro hmem
    rw [categorized_keys] at hmem
    have := (List.mem_filter.mp hmem).2
    simp [hc] at this
  · intro hmem
    rw [category_stats, filterMap_ite, List.map_map] at hmem
    rcases List.mem_map.mp hmem with ⟨pr, hpr, hfst⟩
    have h2 := (List.mem_filter.mp hpr).2
    have : pr.1 = c := hfst
    rw [this] at h2
    simp [hc] at h2
  · intro hmem
    have := (List.mem_filter.mp hmem).2
    simp [hc] at this
  · intro pg hpg
    have hpg' : pg ∈ (categorized_data records).flatMap fun p =>
        if isExcluded p.1 then [] else add_category_slides p.1 p.2 ipp 200 := hpg
    rcases List.mem_flatMap.mp hpg' with ⟨pr, hpr, hmem⟩
    by_cases he : isExcluded pr.1 = true
    · rw [if_pos he] at hmem
      simp at hmem
    · rw [if_neg he] at hmem
      have hfacts := add_category_slides_mem pr.1 pr.2 ipp 200 pg hmem
      have hkey : isExcluded pr.1 = false := by
        rcases Bool.eq_false_or_eq_true (isExcluded pr.1) with h | h
        · exact absurd h he
        · exact h
      constructor
      · rw [hfacts.1]; exact hkey
      · intro p hp
        have hitem := hfacts.2 p hp
        rw [categorized_groups_filter records pr hpr] at hitem
        have := (List.mem_filter.mp hitem).2
        have hcat : p.1.category = pr.1 := by simpa using this
        rw [hcat]
        exact hkey

/-- A record of an excluded (`宣導`-containing) category. -/
def recXuan : Record := ⟨"內容x", "宣導事項", "", "", ""⟩

/-- Concrete run of C6: the category `"宣導事項"` does not surface as a
group key. -/
theorem excluded_category_never_appears_witness :
    "宣導事項" ∉ (categorized_data [recB, recXuan]).map Prod.fst :=
  (excluded_category_never_appears [recB, recXuan] "宣導事項" (by decide) 2).1

/-! ## C7: stats consistency -/

/-- `filterMap` with a guard that never fires is a plain `map`. -/
theorem filterMap_ite_of_not {α β : Type} (p : α → Bool) (f : α → β)
    (l : List α) (h : ∀ x ∈ l, p x = false) :
    (l.filterMap fun x => if p x then none else some (f x)) = l.map f := by
  induction l with
  | nil => rfl
  | cons a t ih =>
      have ha := h a (by simp)
      simp [List.filterMap_cons, ha, ih fun x hx => h x (by simp [hx])]

/-- The second `宣導` filter at lines 121-126 is a no-op: the stats are
just the sizes of the already-filtered groups. -/
theorem category_stats_eq_map (records : List Record) :
    category_stats records
      = (categorized_data records).map fun p => (p.1, p.2.length) :=
  filterMap_ite_of_not _ _ _ (categorized_keys_not_excluded records)

/-- The pages of one category carry exactly that category's record count. -/
theorem add_category_slides_weight (c : String) (items : List Record)
    (ipp : Int) (thr : Nat) :
    ((add_category_slides c items ipp thr).map fun pg => pg.records.length).sum
      = items.length := by
  by_cases h : items = []
  · subst h; simp [add_category_slides]
  · rw [add_category_slides, if_neg h]
    rw [show (fun pg : CategoryPage => pg.records.length)
          = (List.length ∘ CategoryPage.records) from rfl,
        ← List.map_map, numberBatches_map_records,
        ← List.length_flatten, slides_batches_flatten, withSeq_length]

theorem flatMap_pages_weight (groups : List (String × List Record))
    (ipp : Int) :
    ((groups.flatMap fun p =>
        if isExcluded p.1 then [] else add_category_slides p.1 p.2 ipp 200).map
      fun pg => pg.records.length).sum
      = (groups.map fun p => if isExcluded p.1 then 0 else p.2.length).sum := by
  induction groups with
  | nil => rfl
  | cons g t ih =>
      by_cases hg : isExcluded g.1 = true <;>
        simp [List.flatMap_cons, hg, List.sum_append, ih,
          add_category_slides_weight]

/-- C7.  Stats consistency: the sum of the per-category statistics computed
by `read_excel_to_json` equals the total number of record occurrences
rendered on the category pages of the deck, for every `items_per_page`. -/
theorem stats_sum_eq_rendered_count (records : List Record) (ipp : Int) :
    ((category_stats records).map Prod.snd).sum
      = ((categoryPages (read_excel_to_json records) ipp).map
          fun pg => pg.records.length).sum := by
  have hpages : categoryPages (read_excel_to_json records) ipp
      = (categorized_data records).flatMap fun p =>
          if isExcluded p.1 then [] else add_category_slides p.1 p.2 ipp 200 := rfl
  rw [hpages, flatMap_pages_weight, category_stats_eq_map, List.map_map]
  congr 1
  apply List.map_congr_left
  intro p hp
  simp [categorized_keys_not_excluded records p hp]

/-! ## C8: narrative total -/

theorem sum_map_zero {α : Type} (l : List α) :
    (l.map fun _ => (0 : Nat)).sum = 0 := by
  induction l <;> simp [*]

theorem sum_indicator_not_mem {α : Type} [DecidableEq α] (a : α)
    (l : List α) (h : a ∉ l) :
    (l.map fun c => if a = c then (1 : Nat) else 0).sum = 0 := by
  induction l with
  | nil => rfl
  | cons c t ih =>
      simp only [List.map_cons, List.sum_cons]
      rw [if_neg (by rintro rfl; exact h (by simp)),
        ih fun ht => h (by simp [ht])]

/-- On a duplicate-free list the indicator sum is the membership
indicator. -/
theorem sum_indicator_nodup {α : Type} [DecidableEq α] (a : α) (l : List α)
    (hnd : l.Nodup) :
    (l.map fun c => if a = c then (1 : Nat) else 0).sum
      = if a ∈ l then 1 else 0 := by
  induction l with
  | nil => rfl
  | cons c t ih =>
      simp only [List.map_cons, List.sum_cons]
      rcases List.nodup_cons.mp hnd with ⟨hc, ht⟩
      by_cases hac : a = c
      · subst hac
        rw [if_pos rfl, sum_indicator_not_mem a t hc, if_pos (by simp)]
      · rw [if_neg hac, ih ht]
        by_cases hat : a ∈ t
        · rw [if_pos hat, if_pos (by simp [hat])]
        · rw [if_neg hat, if_neg (by simp [hac, hat])]

theorem sum_map_add_distrib {α : Type} (l : List α) (f g : α → Nat) :
    (l.map fun x => f x + g x).sum = (l.map f).sum + (l.map g).sum := by
  induction l with
  | nil => rfl
  | cons x t ih =>
      simp only [List.map_cons, List.sum_cons, ih]
      omega

/-- Counting records category by category, over a duplicate-free list of
non-excluded categories covering all non-excluded records, counts exactly
the non-excluded records. -/
theorem count_partition (cats : List String) (hnd : cats.Nodup)
    (hcats : ∀ c ∈ cats, isExcluded c = false) :
    ∀ records : List Record,
      (∀ r ∈ records, isExcluded r.category = false → r.category ∈ cats) →
      (cats.map fun c => (records.filter fun r => r.category = c).length).sum
        = (records.filter fun r => !isExcluded r.category).length := by
  intro records
  induction records with
  | nil =>
      intro _
      simp [sum_map_zero]
  | cons r rest ih =>
      intro hall
      have hstep : ∀ c ∈ cats,
          ((r :: rest).filter fun x => x.category = c).length
            = (if r.category = c then (1 : Nat) else 0)
              + ((rest.filter fun x => x.category = c)).length := by
        intro c _
        by_cases h : r.category = c
        · simp [List.filter_cons, h]
          omega
        · simp [List.filter_cons, h]
      rw [List.map_congr_left hstep, sum_map_add_distrib,
        sum_indicator_nodup r.category cats hnd,
        ih fun x hx he => hall x (by simp [hx]) he]
      by_cases he : isExcluded r.category = true
      · have hnotmem : r.category ∉ cats := fun hmem => by
          simp [hcats _ hmem] at he
        rw [if_neg hnotmem]
        simp [List.filter_cons, he]
      · have he' : isExcluded r.category = false := by
          rcases Bool.eq_false_or_eq_true (isExcluded r.category) with h | h
          · exact absurd h he
          · exact h
        have hmem : r.category ∈ cats := hall r (by simp) he'
        rw [if_pos hmem]
        simp [List.filter_cons, he']
        omega

/-- On a fresh instance, the loop at lines 190-204 computes the
post-exclusion record count of the ingested sheet. -/
theorem filteredTotalIncrement_read (records : List Record) :
    filteredTotalIncrement (read_excel_to_json records)
      = (records.filter fun r => !isExcluded r.category).length := by
  have h1 : filteredTotalIncrement (read_excel_to_json records)
      = ((categorized_data records).filterMap fun p =>
          if isExcluded p.1 then none else some p.2.length).sum := rfl
  rw [h1, filterMap_ite_of_not _ _ _ (categorized_keys_not_excluded records),
    categorized_data_eq, List.map_map]
  have h2 : ((fun p : String × List Record => p.2.length) ∘
        fun c => (c, records.filter fun r => r.category = c))
      = fun c => (records.filter fun r => r.category = c).length := rfl
  rw [h2]
  refine count_partition _ ?_ ?_ records ?_
  · exact (sortedCategories_nodup records).filter _
  · intro c hcmem
    simpa using (List.mem_filter.mp hcmem).2
  · intro r hr hre
    refine List.mem_filter.mpr ⟨?_, by simp [hre]⟩
    exact mem_sortedCategories.mpr (List.mem_map_of_mem Record.category hr)

/-- C8.  Narrative total: the count displayed by the deck's narrative text
(title subtitle, overview page, motivation page all print
`self.filtered_total`) on a fresh instance (`filtered_total = 0`, line 20)
is the post-exclusion record count — never the raw row count. -/
theorem narrative_total_eq_post_exclusion_count (records : List Record)
    (ipp : Int) :
    (create_presentation 0 (read_excel_to_json records) ipp).1
      = (records.filter fun r => !isExcluded r.category).length := by
  have h : (create_presentation 0 (read_excel_to_json records) ipp).1
      = 0 + filteredTotalIncrement (read_excel_to_json records) := rfl
  rw [h, Nat.zero_add, filteredTotalIncrement_read]

/-! ## C9: page labels -/

theorem numberBatches_map_title (c : String) (total : Nat) :
    ∀ (bs : List (List (Record × Nat))) (n : Nat),
      (numberBatches c total n bs).map CategoryPage.title
        = (List.range' n bs.length).map fun k => pageTitle c k total
  | [], _ => by simp [numberBatches]
  | b :: bs, n => by
      simp [numberBatches, List.range'_succ,
        numberBatches_map_title c total bs (n + 1)]

/-- A category whose records all fit the threshold and number exactly
`items_per_page` is batched into one single full page. -/
theorem paginateAux_allshort_exact (ipp : Int) (thr : Nat) :
    ∀ (items : List Record) (buffer : List (Record × Nat)) (seq : Nat),
      (∀ r ∈ items, r.content.length ≤ thr) →
      1 ≤ ipp →
      ((buffer.length + items.length : Nat) : Int) = ipp →
      paginateAux ipp thr items buffer seq = [buffer ++ withSeq items seq] := by
  intro items
  induction items with
  | nil =>
      intro buffer seq _ h1 hlen
      have hne : buffer ≠ [] := by
        intro hb; subst hb; simp at hlen; omega
      rw [paginateAux, if_neg hne]
      simp [withSeq]
  | cons item rest ih =>
      intro buffer seq hshort h1 hlen
      have hl : ¬item.content.length > thr := by
        have := hshort item (by simp); omega
      by_cases hrest : rest = []
      · subst hrest
        have hflush : ipp ≤ (buffer.length : Int) + 1 := by
          simp at hlen; omega
        simp [paginateAux, hl, hflush, withSeq]
      · have hrl : 1 ≤ rest.length := by
          cases rest with
          | nil => exact absurd rfl hrest
          | cons _ _ => simp
        have hflush : ¬ipp ≤ (buffer.length : Int) + 1 := by
          simp at hlen; omega
        have hrec := ih (buffer ++ [(item, seq)]) (seq + 1)
          (fun r hr => hshort r (by simp [hr])) h1 (by simp at hlen ⊢; omega)
        simp [paginateAux, hl, hflush, hrec, withSeq]

/-- C9 counterexample.  The parenthetical of the claim fails: category
`"Y"` has exactly `items_per_page = 2` records, yet because the first one
is oversized (201 characters > 200) pagination isolates it and produces
two pages with suffixed titles, not one suffix-free page. -/
theorem exact_ipp_with_oversized_splits :
    (add_category_slides "Y" [rLong, rShort] 2 200).map CategoryPage.title
      = ["Y (1/2)", "Y (2/2)"]
    ∧ ([rLong, rShort] : List Record).length = 2 := by
  exact ⟨by decide, rfl⟩

/-- C9 (amended).  Page labels: with `t` the number of pages a category
paginates into, the `i`-th page (1-based) is titled
`category ++ " (i/t)"` when `t > 1` and exactly `category` when `t = 1`;
and a category with exactly `items_per_page ≥ 1` records, none of which
exceeds the content threshold, yields exactly one suffix-free page holding
all its records. -/
theorem page_title_format (category : String) (items : List Record)
    (ipp : Int) (thr : Nat) :
    ((add_category_slides category items ipp thr).map CategoryPage.title
      = (List.range' 1 (add_category_slides category items ipp thr).length).map
          fun k =>
            if 1 < (add_category_slides category items ipp thr).length then
              category ++ " (" ++ toString k ++ "/"
                ++ toString (add_category_slides category items ipp thr).length
                ++ ")"
            else category)
    ∧ (1 ≤ ipp → (items.length : Int) = ipp →
        (∀ r ∈ items, r.content.length ≤ thr) →
        add_category_slides category items ipp thr
          = [⟨category, category, withSeq items 1⟩]) := by
  constructor
  · by_cases hempty : items = []
    · subst hempty
      simp [add_category_slides]
    · have hacs : add_category_slides category items ipp thr
          = numberBatches category (slides_batches items ipp thr).length 1
              (slides_batches items ipp thr) := by
        rw [add_category_slides, if_neg hempty]
      rw [hacs, numberBatches_map_title, numberBatches_length]
      apply List.map_congr_left
      intro k _
      rfl
  · intro h1 hlen hshort
    have hne : items ≠ [] := by
      intro he; subst he; simp at hlen; omega
    have hbatches : slides_batches items ipp thr = [withSeq items 1] := by
      rw [slides_batches]
      simpa using
        paginateAux_allshort_exact ipp thr items [] 1 hshort h1 (by simpa using hlen)
    have hacs : add_category_slides category items ipp thr
        = numberBatches category 1 1 [withSeq items 1] := by
      rw [add_category_slides, if_neg hne, hbatches]
      rfl
    rw [hacs]
    simp [numberBatches, pageTitle]

/-- Concrete run of amended C9: two short records at `items_per_page = 2`
give one page titled exactly `"X"`, holding both records in order. -/
theorem page_title_format_witness :
    add_category_slides "X" [rShort, rShort2] 2 200
      = [⟨"X", "X", [(rShort, 1), (rShort2, 2)]⟩] := by
  have h2 := (page_title_format "X" [rShort, rShort2] 2 200).2
    (by decide) (by decide) (by decide)
  rw [h2]
  decide

/-! ## C10: the running total accumulates across calls -/

/-- C10.  `self.filtered_total` is initialised once (line 20) and only ever
incremented (line 196): after `k` calls of `create_presentation` on the
same instance with the same ingested data, the displayed total is `k`
times the post-exclusion record count, so only the first call shows the
true filtered count. -/
theorem filtered_total_accumulates_across_calls (records : List Record)
    (ipp : Int) (k : Nat) :
    totalAfterCalls (read_excel_to_json records) ipp k
      = k * (records.filter fun r => !isExcluded r.category).length := by
  induction k with
  | zero => simp [totalAfterCalls]
  | succ k ih =>
      have h : totalAfterCalls (read_excel_to_json records) ipp (k + 1)
          = totalAfterCalls (read_excel_to_json records) ipp k
            + filteredTotalIncrement (read_excel_to_json records) := rfl
      rw [h, ih, filteredTotalIncrement_read, Nat.succ_mul]

end App
